import Mathlib

/-!
Verification development for the `adaptivetuning` repository.

The real-valued numerical code of `adaptivetuning/dissonancereduction.py` is
embedded over `ℝ` (python floats are modelled as real numbers; `numpy`
vectorized expressions become element-wise list/`Finset.range` computations).
Raised python exceptions are modelled with `Except Unit`.  The voice table and
envelope logic of `adaptivetuning/audiogenerator.py` and the snapshot taken by
the tuning loop of `adaptivetuning/tuner.py` are embedded as explicit state
records and pure functions of the current time.
-/

namespace Adaptivetuning

/-! ## Embedding of `Dissonancereduction` (dissonancereduction.py) -/

/-- One row of the `args` array assembled in `Dissonancereduction.quasi_constants`
(lines 131-147): the ids `(i, k, j, l)` of a candidate pair of partials together
with the two absolute frequencies `p1, p2` and the raw amplitudes `v1, v2`.
For a pair of two complex-tone partials, `l ≥ 0`; for a (partial, fixed
frequency) pair, `j` is the index into the fixed-frequency list and `l = -1`. -/
structure PairArgs where
  i : ℕ
  k : ℕ
  j : ℕ
  l : ℤ
  p1 : ℝ
  p2 : ℝ
  v1 : ℝ
  v2 : ℝ

/-- The ids row `args[:,0:4]` of one candidate pair. -/
def PairArgs.ids (a : PairArgs) : ℕ × ℕ × ℕ × ℤ := (a.i, a.k, a.j, a.l)

/-- The candidate pairs of partials of two distinct complex tones:
`for (i,j) with i < j, for (k,l) over all partial indices` with
`frequencies[i,k] = fundamentals_freq[i] * partials_pos[k]` and
`amplitudes[i,k] = fundamentals_amp[i] * partials_amp[k]`
(`np.outer`, quasi_constants lines 125-138). -/
noncomputable def tonePairArgs (ff fa pp pa : List ℝ) : List PairArgs :=
  (List.range ff.length).flatMap fun i =>
    (List.range' (i + 1) (ff.length - (i + 1))).flatMap fun j =>
      (List.range pp.length).flatMap fun k =>
        (List.range pp.length).map fun (l : ℕ) =>
          { i := i, k := k, j := j, l := Int.ofNat l
            p1 := ff.getD i 0 * pp.getD k 0
            p2 := ff.getD j 0 * pp.getD l 0
            v1 := fa.getD i 0 * pa.getD k 0
            v2 := fa.getD j 0 * pa.getD l 0 }

/-- The candidate pairs of a complex-tone partial and a fixed frequency
(quasi_constants lines 139-147); the fixed list index is stored in the `j`
slot and `l = -1` marks the pair as fixed. -/
noncomputable def fixedPairArgs (ff fa pp pa fxf fxa : List ℝ) : List PairArgs :=
  (List.range ff.length).flatMap fun i =>
    (List.range pp.length).flatMap fun k =>
      (List.range fxf.length).map fun f =>
        { i := i, k := k, j := f, l := -1
          p1 := ff.getD i 0 * pp.getD k 0
          p2 := fxf.getD f 0
          v1 := fa.getD i 0 * pa.getD k 0
          v2 := fxa.getD f 0 }

/-- Critical bandwidth `25 + 75 * (1 + 3.5e-7 * (p1 + p2)^2)^0.69`
(Zwicker-Terhardt approximation, quasi_constants line 156). -/
noncomputable def cbw (p1 p2 : ℝ) : ℝ :=
  25 + 75 * (1 + 3.5e-7 * (p1 + p2) ^ 2) ^ (0.69 : ℝ)

/-- Normalized spacing `h = |p1 - p2| / cb` (quasi_constants line 159). -/
noncomputable def hval (p1 p2 : ℝ) : ℝ :=
  |p1 - p2| / cbw p1 p2

/-- Auditory-level proxy
`log10(v) - _amp_threshold_log - 45.71633305 * p^(-0.8) - 5e-17 * p^4`
(quasi_constants lines 176-177); `atl` is the stored `_amp_threshold_log`. -/
noncomputable def audLevel (atl v p : ℝ) : ℝ :=
  Real.logb 10 v - atl - 45.71633305 * p ^ (-0.8 : ℝ) - 5e-17 * p ^ 4

/-- The first relevance filter of quasi_constants (line 162):
keep a pair iff `h < 1.46` and both raw amplitudes are positive. -/
noncomputable def pairRelevant (a : PairArgs) : Prop :=
  hval a.p1 a.p2 < 1.46 ∧ 0 < a.v1 ∧ 0 < a.v2

/-- The audibility filter of quasi_constants (line 180): keep a pair iff both
auditory-level proxies are positive. -/
noncomputable def pairAudible (atl : ℝ) (a : PairArgs) : Prop :=
  0 < audLevel atl a.v1 a.p1 ∧ 0 < audLevel atl a.v2 a.p2

noncomputable instance (a : PairArgs) : Decidable (pairRelevant a) :=
  inferInstanceAs (Decidable (hval a.p1 a.p2 < 1.46 ∧ 0 < a.v1 ∧ 0 < a.v2))

noncomputable instance (atl : ℝ) (a : PairArgs) : Decidable (pairAudible atl a) :=
  inferInstanceAs (Decidable (0 < audLevel atl a.v1 a.p1 ∧ 0 < audLevel atl a.v2 a.p2))

/-- The full candidate pair list `args` of quasi_constants (lines 131-147):
tone-tone pairs followed by tone-fixed pairs. -/
noncomputable def quasiArgs (ff fa pp pa fxf fxa : List ℝ) : List PairArgs :=
  tonePairArgs ff fa pp pa ++ fixedPairArgs ff fa pp pa fxf fxa

/-- The candidate pairs surviving both the relevance filter (line 162) and the
audibility filter (line 180) of quasi_constants, in order. -/
noncomputable def quasiSurvivors (atl : ℝ) (ff fa pp pa fxf fxa : List ℝ) : List PairArgs :=
  ((quasiArgs ff fa pp pa fxf fxa).filter fun a => decide (pairRelevant a)).filter
    fun a => decide (pairAudible atl a)

/-- Embedding of `Dissonancereduction.quasi_constants` (lines 84-185).
`atl` is the stored attribute `_amp_threshold_log`.  With no complex tones, or
one complex tone and no fixed frequencies, three empty arrays are returned
(line 121).  Otherwise, when the candidate pair list is empty,
`np.array([...])` is 1-dimensional and `args[:,0:4]` (line 149) raises an
uncaught `IndexError`, modelled as `Except.error ()`.  Otherwise the ids,
critical bandwidths and volume factors (`min` of the two proxies, line 183) of
the pairs surviving both filters are returned. -/
noncomputable def quasi_constants (atl : ℝ) (ff fa pp pa fxf fxa : List ℝ) :
    Except Unit (List (ℕ × ℕ × ℕ × ℤ) × List ℝ × List ℝ) :=
  if ff.length = 0 ∨ (ff.length = 1 ∧ fxf.length = 0) then
    .ok ([], [], [])
  else if (quasiArgs ff fa pp pa fxf fxa).isEmpty then .error ()
  else
    .ok ((quasiSurvivors atl ff fa pp pa fxf fxa).map PairArgs.ids,
         (quasiSurvivors atl ff fa pp pa fxf fxa).map fun a => cbw a.p1 a.p2,
         (quasiSurvivors atl ff fa pp pa fxf fxa).map
           fun a => min (audLevel atl a.v1 a.p1) (audLevel atl a.v2 a.p2))

/-- Live position of the first partial of a relevant pair, reconstructed from
its ids: `positions[i,k] = fundamentals_freq[i] * partials_pos[k]`
(dissonance_and_gradient lines 221-227). -/
noncomputable def pairP1 (ff pp : List ℝ) (t : ℕ × ℕ × ℕ × ℤ) : ℝ :=
  ff.getD t.1 0 * pp.getD t.2.1 0

/-- Live position of the second partial of a relevant pair:
`positions[j,l]` when `l ≥ 0`, else the fixed frequency `fixed_freq[j]`
(dissonance_and_gradient lines 221-227). -/
noncomputable def pairP2 (ff pp fxf : List ℝ) (t : ℕ × ℕ × ℕ × ℤ) : ℝ :=
  if 0 ≤ t.2.2.2 then ff.getD t.2.2.1 0 * pp.getD t.2.2.2.toNat 0
  else fxf.getD t.2.2.1 0

/-- Raw amplitude of the first partial of a candidate pair, reconstructed from
its ids: `amplitudes[i,k] = fundamentals_amp[i] * partials_amp[k]`. -/
noncomputable def pairV1 (fa pa : List ℝ) (t : ℕ × ℕ × ℕ × ℤ) : ℝ :=
  fa.getD t.1 0 * pa.getD t.2.1 0

/-- Raw amplitude of the second partial of a candidate pair:
`amplitudes[j,l]` when `l ≥ 0`, else the fixed amplitude `fixed_amp[j]`. -/
noncomputable def pairV2 (fa pa fxa : List ℝ) (t : ℕ × ℕ × ℕ × ℤ) : ℝ :=
  if 0 ≤ t.2.2.2 then fa.getD t.2.2.1 0 * pa.getD t.2.2.2.toNat 0
  else fxa.getD t.2.2.1 0

/-- The `n`-th ids row of `relevant_pairs` (default row for out-of-range `n`,
which never occurs in the uses below). -/
def rpAt (rps : List (ℕ × ℕ × ℕ × ℤ)) (n : ℕ) : ℕ × ℕ × ℕ × ℤ :=
  rps.getD n (0, 0, 0, 0)

/-- Element `hs[n] = |p1s - p2s| / critical_bandwidths` of
dissonance_and_gradient (line 236); the critical bandwidths are the stored
quasi-constants passed in, not recomputed. -/
noncomputable def dgH (ff pp fxf cbs : List ℝ) (rps : List (ℕ × ℕ × ℕ × ℤ)) (n : ℕ) : ℝ :=
  |pairP1 ff pp (rpAt rps n) - pairP2 ff pp fxf (rpAt rps n)| / cbs.getD n 0

/-- Element `ds[n] = hs^2 * exp(-8*hs)` of dissonance_and_gradient (line 239),
the Sethares pairwise roughness. -/
noncomputable def dgD (ff pp fxf cbs : List ℝ) (rps : List (ℕ × ℕ × ℕ × ℤ)) (n : ℕ) : ℝ :=
  dgH ff pp fxf cbs rps n ^ 2 * Real.exp (-8 * dgH ff pp fxf cbs rps n)

/-- Element `dhdcs[n]` of dissonance_and_gradient (lines 244-246):
`volume_factors * 2 * hs * exp(-8*hs) * (1 - 4*hs) * np.where(p1s > p2s, 1, -1)
/ critical_bandwidths`. -/
noncomputable def dgDhdc (ff pp fxf cbs vfs : List ℝ) (rps : List (ℕ × ℕ × ℕ × ℤ)) (n : ℕ) : ℝ :=
  vfs.getD n 0 * 2 * dgH ff pp fxf cbs rps n
    * Real.exp (-8 * dgH ff pp fxf cbs rps n) * (1 - 4 * dgH ff pp fxf cbs rps n)
    * (if pairP2 ff pp fxf (rpAt rps n) < pairP1 ff pp (rpAt rps n) then 1 else -1)
    / cbs.getD n 0

/-- Element `r1s[n] = partials_pos[relevant_pairs[:,1]]` (line 251). -/
noncomputable def dgR1 (pp : List ℝ) (rps : List (ℕ × ℕ × ℕ × ℤ)) (n : ℕ) : ℝ :=
  pp.getD (rpAt rps n).2.1 0

/-- Element `r2s[n] = np.where(l >= 0, partials_pos[l], 0)` (line 252). -/
noncomputable def dgR2 (pp : List ℝ) (rps : List (ℕ × ℕ × ℕ × ℤ)) (n : ℕ) : ℝ :=
  if 0 ≤ (rpAt rps n).2.2.2 then pp.getD (rpAt rps n).2.2.2.toNat 0 else 0

/-- Element `simple_grads1[n] = dhdcs * r1s * (0.5 * (p2s / p1s - 1) + 1)`
(line 260). -/
noncomputable def dgSg1 (ff pp fxf cbs vfs : List ℝ) (rps : List (ℕ × ℕ × ℕ × ℤ)) (n : ℕ) : ℝ :=
  dgDhdc ff pp fxf cbs vfs rps n * dgR1 pp rps n
    * (0.5 * (pairP2 ff pp fxf (rpAt rps n) / pairP1 ff pp (rpAt rps n) - 1) + 1)

/-- Element `simple_grads2[n] = dhdcs * r2s * (0.5 * (p1s / p2s - 1) + 1)`
(line 261). -/
noncomputable def dgSg2 (ff pp fxf cbs vfs : List ℝ) (rps : List (ℕ × ℕ × ℕ × ℤ)) (n : ℕ) : ℝ :=
  dgDhdc ff pp fxf cbs vfs rps n * dgR2 pp rps n
    * (0.5 * (pairP1 ff pp (rpAt rps n) / pairP2 ff pp fxf (rpAt rps n) - 1) + 1)

/-- Embedding of `Dissonancereduction.dissonance_and_gradient` (lines 187-269).
With no relevant pairs, `np.array([])` is 1-dimensional, the `IndexError` is
caught and `(0, np.zeros(len(fundamentals_freq)))` is returned (lines 228-233).
Otherwise the total dissonance is `np.sum(ds * volume_factors)` (line 241) and
`gradient[i]` sums `simple_grads1` over the pairs whose first tone is `i` minus
`simple_grads2` over the pairs whose second index is `i` (lines 265-267).
Pair ids are assumed in range, as produced by `quasi_constants`; out-of-range
reads are modelled with default value `0`. -/
noncomputable def dissonance_and_gradient (ff pp fxf cbs vfs : List ℝ)
    (rps : List (ℕ × ℕ × ℕ × ℤ)) : ℝ × List ℝ :=
  if rps.isEmpty then (0, List.replicate ff.length 0)
  else
    (∑ n ∈ Finset.range rps.length, dgD ff pp fxf cbs rps n * vfs.getD n 0,
     (List.range ff.length).map fun i =>
       (∑ n ∈ Finset.range rps.length,
         if (rpAt rps n).1 = i then dgSg1 ff pp fxf cbs vfs rps n else 0)
       - ∑ n ∈ Finset.range rps.length,
         if (rpAt rps n).2.2.1 = i then dgSg2 ff pp fxf cbs vfs rps n else 0)

/-- The shape of a `scipy.optimize.OptimizeResult` as used by `tune`. -/
structure OptimizeResult where
  x : List ℝ
  success : Bool
  fval : ℝ
  jac : List ℝ
  nit : ℕ

/-- The type of the external optimizer `scipy.optimize.minimize`:
it receives the joint objective+gradient, the start vector and optional
per-variable bounds.  `tune` is parametrized over it because scipy is an
external library, not part of this repository. -/
def Minimizer : Type :=
  (List ℝ → ℝ × List ℝ) → List ℝ → Option (List (ℝ × ℝ)) → OptimizeResult

/-- Modelled from the spec: the behavior of the external bounded gradient
solver (`scipy.optimize.minimize` with L-BFGS-B, absent from src/) on the one
case the spec constrains — when the gradient reported at the starting point is
the zero vector the solver "need not move it" and returns the starting point
with `success` true.  Everything else about the solver is left abstract. -/
def MinimizerReturnsStationaryStart (m : Minimizer) : Prop :=
  ∀ obj x0 bounds, (obj x0).2 = List.replicate x0.length 0 →
    (m obj x0 bounds).x = x0 ∧ (m obj x0 bounds).success = true

/-- A trivial solver instance satisfying `MinimizerReturnsStationaryStart`:
it always returns the starting point. -/
noncomputable def startMinimizer : Minimizer :=
  fun obj x0 _ =>
    { x := x0, success := true, fval := (obj x0).1, jac := (obj x0).2, nit := 0 }

/-- Embedding of `Dissonancereduction.tune` (lines 271-337), parametrized by
the external solver `m`.  `atl` is the stored `_amp_threshold_log` and
`relBounds` the `relative_bounds` attribute (`None` disables bounds).  With no
fundamentals a trivial success result with empty `x`, objective `0`, empty
`jac` and zero iterations is returned without invoking the solver (lines
303-315).  Otherwise `quasi_constants` is called once (an exception in it
propagates) and the solver is run on `dissonance_and_gradient` from
`fundamentals_freq`, with box bounds `(f*lo, f*hi)` per fundamental. -/
noncomputable def tune (m : Minimizer) (atl : ℝ) (relBounds : Option (ℝ × ℝ))
    (ff fa pp pa fxf fxa : List ℝ) : Except Unit OptimizeResult :=
  if ff.length = 0 then
    .ok { x := [], success := true, fval := 0, jac := [], nit := 0 }
  else
    match quasi_constants atl ff fa pp pa fxf fxa with
    | .error e => .error e
    | .ok (rps, cbs, vfs) =>
      let bounds := relBounds.map fun rb => ff.map fun f => (f * rb.1, f * rb.2)
      .ok (m (fun fs => dissonance_and_gradient fs pp fxf cbs vfs rps) ff bounds)

/-- The `(x, success)` projection of a `tune` result, `none` on an exception. -/
noncomputable def tuneXS (e : Except Unit OptimizeResult) : Option (List ℝ × Bool) :=
  match e with
  | .ok r => some (r.x, r.success)
  | .error _ => none

/-- Embedding of `Dissonancereduction.single_dissonance_and_gradient`
(lines 339-364): `quasi_constants` followed by `dissonance_and_gradient` on
the same inputs. -/
noncomputable def single_dissonance_and_gradient (atl : ℝ) (ff fa pp pa fxf fxa : List ℝ) :
    Except Unit (ℝ × List ℝ) :=
  match quasi_constants atl ff fa pp pa fxf fxa with
  | .error e => .error e
  | .ok (rps, cbs, vfs) => .ok (dissonance_and_gradient ff pp fxf cbs vfs rps)

/-- Written from the spec's words (refinement side of C2): the per-side
gradient contribution of one relevant pair, "2h e^(-8h)(1-4h) sign(p1-p2)/cb,
scaled by volume_factor, by the partial's relative position r, and by the
correction factor 0.5*(other/this - 1) + 1". -/
noncomputable def specSideContrib (p1 p2 cb vf r thisF otherF : ℝ) : ℝ :=
  vf * (2 * (|p1 - p2| / cb) * Real.exp (-8 * (|p1 - p2| / cb))
          * (1 - 4 * (|p1 - p2| / cb)) * Real.sign (p1 - p2) / cb)
    * r * (0.5 * (otherF / thisF - 1) + 1)

/-- Written from the spec's words (refinement side of C2): the contribution of
pair `n` to the total dissonance, `h^2 * exp(-8h)` times the pair's volume
factor, with `h = |p1-p2|/cb` taken at the stored critical bandwidth. -/
noncomputable def specPairDiss (ff pp fxf cbs vfs : List ℝ)
    (rps : List (ℕ × ℕ × ℕ × ℤ)) (n : ℕ) : ℝ :=
  (|pairP1 ff pp (rpAt rps n) - pairP2 ff pp fxf (rpAt rps n)| / cbs.getD n 0) ^ 2
    * Real.exp (-8 * (|pairP1 ff pp (rpAt rps n) - pairP2 ff pp fxf (rpAt rps n)| / cbs.getD n 0))
    * vfs.getD n 0

/-- Written from the spec's words (refinement side of C2): entry `i` of the
gradient sums the per-pair contributions with sign `+` where tone `i` appears
in the first role and `-` where it appears in the second role; the first side
is scaled by `partials_pos[k]`, the second by `partials_pos[l]` (`0` for a
fixed counterpart). -/
noncomputable def specGradEntry (ff pp fxf cbs vfs : List ℝ)
    (rps : List (ℕ × ℕ × ℕ × ℤ)) (i : ℕ) : ℝ :=
  ∑ n ∈ Finset.range rps.length,
    ((if (rpAt rps n).1 = i then
        specSideContrib (pairP1 ff pp (rpAt rps n)) (pairP2 ff pp fxf (rpAt rps n))
          (cbs.getD n 0) (vfs.getD n 0) (dgR1 pp rps n)
          (pairP1 ff pp (rpAt rps n)) (pairP2 ff pp fxf (rpAt rps n))
      else 0)
     - (if (rpAt rps n).2.2.1 = i then
        specSideContrib (pairP1 ff pp (rpAt rps n)) (pairP2 ff pp fxf (rpAt rps n))
          (cbs.getD n 0) (vfs.getD n 0) (dgR2 pp rps n)
          (pairP2 ff pp fxf (rpAt rps n)) (pairP1 ff pp (rpAt rps n))
      else 0))

/-! ## Embedding of `KeyData` and `Audiogenerator` (audiogenerator.py) -/

/-- Embedding of the `KeyData` voice state (audiogenerator.py lines 6-163).
`timestamp` is `none` before the first press, otherwise the time of the last
press or release; `env_when_released` is the envelope height captured at the
moment of release (meaningful only after a release). -/
structure KeyData where
  amplitude : ℝ
  attack_time : ℝ
  decay_time : ℝ
  sustain_level : ℝ
  release_time : ℝ
  frequency : ℝ
  partials_pos : List ℝ
  partials_amp : List ℝ
  pressed : Bool
  timestamp : Option ℝ
  env_when_released : ℝ

/-- Embedding of `KeyData.currently_running` (lines 112-116): pressed, or
released with the release time still running at the current time `now`. -/
def KeyData.currently_running (k : KeyData) (now : ℝ) : Prop :=
  k.pressed = true ∨ (k.timestamp.isSome = true ∧ now - k.timestamp.getD 0 < k.release_time)

noncomputable instance (k : KeyData) (now : ℝ) : Decidable (k.currently_running now) :=
  inferInstanceAs (Decidable (_ ∨ _))

/-- Embedding of `KeyData.current_env` (lines 118-141): the piecewise-linear
adsr envelope height `m * t + n` as a function of the time `t` elapsed since
the stored timestamp, branching on `pressed`. -/
noncomputable def KeyData.current_env (k : KeyData) (now : ℝ) : ℝ :=
  match k.timestamp with
  | none => 0
  | some ts =>
    let t := now - ts
    if k.pressed then
      if t < k.attack_time then 1 / k.attack_time * t + 0
      else if t < k.attack_time + k.decay_time then
        (k.sustain_level - 1) / k.decay_time * t
          + (1 - k.attack_time * ((k.sustain_level - 1) / k.decay_time))
      else 0 * t + k.sustain_level
    else
      if t < k.release_time then
        -k.env_when_released / k.release_time * t + k.env_when_released
      else 0 * t + 0

/-- Embedding of `KeyData.current_amplitude` (lines 143-146). -/
noncomputable def KeyData.current_amplitude (k : KeyData) (now : ℝ) : ℝ :=
  k.amplitude * k.current_env now

/-- Embedding of `KeyData.release` (lines 153-158): if pressed, capture the
current envelope height, stamp the release time and clear `pressed`; otherwise
nothing happens. -/
noncomputable def KeyData.release (k : KeyData) (now : ℝ) : KeyData :=
  if k.pressed then
    { k with env_when_released := k.current_env now, timestamp := some now, pressed := false }
  else k

/-- A message sent to the external sound output (SuperCollider) — only the
frequency update of `CustomSynth.set_frequency` is needed here. -/
inductive SCMsg where
  | setFreq : ℕ → ℝ → SCMsg

/-- The `Audiogenerator` state touched by `note_change_freq`: the per-pitch
voice table `keys` and, abstractly, which pitches currently have a running
synth (`synths[pitch] is not None`). -/
structure AGState where
  keys : ℕ → Option KeyData
  synths : ℕ → Bool

/-- Embedding of `Audiogenerator.note_change_freq` (lines 807-826) for an
integer pitch: if the key at `pitch` exists, its `frequency` field is set to
`freq`; if a synth runs at `pitch`, the frequency update is forwarded to the
sound output.  Returns the new state and the emitted messages. -/
noncomputable def note_change_freq (s : AGState) (pitch : ℕ) (freq : ℝ) :
    AGState × List SCMsg :=
  ({ keys := fun p =>
       if p = pitch then (s.keys pitch).map fun k => { k with frequency := freq }
       else s.keys p,
     synths := s.synths },
   if s.synths pitch then [SCMsg.setFreq pitch freq] else [])

/-! ## Embedding of the tuning-loop snapshot (tuner.py lines 286-301) -/

/-- The equal-tempered fundamental `440 * 2^((pitch - 69) / 12)` recomputed
from the raw MIDI pitch in every tuning pass (tuner.py line 292). -/
noncomputable def etFreq (p : ℕ) : ℝ :=
  440 * (2 : ℝ) ^ (((p : ℝ) - 69) / 12)

/-- Embedding of the snapshot loop of `Tuner.tune_loop` (lines 287-293) over
the voice table (an association list mirroring `audiogenerator.keys`): for
every pitch whose key exists and is currently running, collect
`(pitch, 440 * 2^((pitch-69)/12), amplitude)` — the parallel lists `pitches`,
`fundamentals_freq` (always recomputed from equal temperament, line 292) and
`fundamentals_amp`. -/
noncomputable def snapshotRunning (keys : List (ℕ × Option KeyData)) (now : ℝ) :
    List (ℕ × ℝ × ℝ) :=
  keys.filterMap fun pk =>
    match pk.2 with
    | none => none
    | some k => if k.currently_running now then some (pk.1, etFreq pk.1, k.amplitude) else none

/-! ## Concrete fixtures used to instantiate the theorems below -/

/-- The single candidate pair arising from two complex tones at 440 Hz with one
partial at relative position 1 and raw amplitudes 1000000. -/
noncomputable def samplePair : PairArgs :=
  { i := 0, k := 0, j := 1, l := Int.ofNat 0
    p1 := (440 : ℝ) * 1, p2 := (440 : ℝ) * 1
    v1 := (1000000 : ℝ) * 1, v2 := (1000000 : ℝ) * 1 }

/-- Like `samplePair` but with a far-below-threshold amplitude on the second
tone, so its auditory-level proxy is negative. -/
noncomputable def faintPair : PairArgs :=
  { i := 0, k := 0, j := 1, l := Int.ofNat 0
    p1 := (440 : ℝ) * 1, p2 := (440 : ℝ) * 1
    v1 := (1000000 : ℝ) * 1, v2 := (1e-50 : ℝ) * 1 }

/-- A voice pressed at time 0 with attack 0.1, decay 0.2, sustain 0.3 and
release 0.4 (the envelope of the spec's round-trip scenario). -/
noncomputable def adsrKey (amp fr e : ℝ) (pp pa : List ℝ) : KeyData :=
  { amplitude := amp, attack_time := 0.1, decay_time := 0.2, sustain_level := 0.3
    release_time := 0.4, frequency := fr, partials_pos := pp, partials_amp := pa
    pressed := true, timestamp := some 0, env_when_released := e }

/-- A one-voice `Audiogenerator` state: pitch 60 holds a pressed voice and a
running synth; all other slots are empty. -/
noncomputable def sampleAG : AGState :=
  { keys := fun p => if p = 60 then some (adsrKey 1 440 0 [1] [1]) else none
    synths := fun p => p == 60 }

/-! ## Helper lemmas -/

theorem mem_quasiArgs_reconstruct {ff fa pp pa fxf fxa : List ℝ} {a : PairArgs}
    (ha : a ∈ quasiArgs ff fa pp pa fxf fxa) :
    a.p1 = pairP1 ff pp a.ids ∧ a.p2 = pairP2 ff pp fxf a.ids ∧
    a.v1 = pairV1 fa pa a.ids ∧ a.v2 = pairV2 fa pa fxa a.ids := by
  rcases List.mem_append.1 ha with h | h
  · rcases List.mem_flatMap.1 h with ⟨i, -, h⟩
    rcases List.mem_flatMap.1 h with ⟨j, -, h⟩
    rcases List.mem_flatMap.1 h with ⟨k, -, h⟩
    rcases List.mem_map.1 h with ⟨l, -, rfl⟩
    refine ⟨?_, ?_, ?_, ?_⟩ <;>
      simp [PairArgs.ids, pairP1, pairP2, pairV1, pairV2, Int.ofNat_eq_natCast,
        Int.natCast_nonneg, Int.toNat_natCast]
  · rcases List.mem_flatMap.1 h with ⟨i, -, h⟩
    rcases List.mem_flatMap.1 h with ⟨k, -, h⟩
    rcases List.mem_map.1 h with ⟨f, -, rfl⟩
    refine ⟨?_, ?_, ?_, ?_⟩ <;>
      simp [PairArgs.ids, pairP1, pairP2, pairV1, pairV2]

theorem quasi_constants_ok_elim {atl : ℝ} {ff fa pp pa fxf fxa : List ℝ}
    {rps : List (ℕ × ℕ × ℕ × ℤ)} {cbs vfs : List ℝ}
    (h : quasi_constants atl ff fa pp pa fxf fxa = .ok (rps, cbs, vfs)) :
    (rps = [] ∧ cbs = [] ∧ vfs = []) ∨
    ∃ args2 : List PairArgs,
      (∀ a ∈ args2, a ∈ quasiArgs ff fa pp pa fxf fxa ∧
        pairRelevant a ∧ pairAudible atl a) ∧
      rps = args2.map PairArgs.ids ∧
      cbs = (args2.map fun a => cbw a.p1 a.p2) ∧
      vfs = (args2.map fun a => min (audLevel atl a.v1 a.p1) (audLevel atl a.v2 a.p2)) := by
  unfold quasi_constants at h
  split at h
  · injection h with h1
    injection h1 with h2 h3
    injection h3 with h4 h5
    exact Or.inl ⟨h2.symm, h4.symm, h5.symm⟩
  · split at h
    · exact Except.noConfusion h
    · injection h with h1
      injection h1 with h2 h3
      injection h3 with h4 h5
      refine Or.inr ⟨quasiSurvivors atl ff fa pp pa fxf fxa, ?_, h2.symm, h4.symm, h5.symm⟩
      intro a ha
      have h1m := List.mem_filter.1 ha
      have h2m := List.mem_filter.1 h1m.1
      exact ⟨h2m.1, of_decide_eq_true h2m.2, of_decide_eq_true h1m.2⟩

/-- C1: for every pair returned in `relevant_pairs` by `quasi_constants`, the
normalized spacing `h = |p1-p2|/cb` computed from the input positions is
`< 1.46`, both raw partial amplitudes of the pair are `> 0`, and the critical
bandwidth stored for the pair is `cb = 25 + 75*(1+3.5e-7*(p1+p2)^2)^0.69`. -/
theorem quasi_constants_relevant_pairs (atl : ℝ) (ff fa pp pa fxf fxa : List ℝ)
    (rps : List (ℕ × ℕ × ℕ × ℤ)) (cbs vfs : List ℝ)
    (hq : quasi_constants atl ff fa pp pa fxf fxa = .ok (rps, cbs, vfs))
    (n : ℕ) (hn : n < rps.length) :
    hval (pairP1 ff pp (rpAt rps n)) (pairP2 ff pp fxf (rpAt rps n)) < 1.46 ∧
    0 < pairV1 fa pa (rpAt rps n) ∧ 0 < pairV2 fa pa fxa (rpAt rps n) ∧
    cbs.getD n 0 = cbw (pairP1 ff pp (rpAt rps n)) (pairP2 ff pp fxf (rpAt rps n)) := by
  rcases quasi_constants_ok_elim hq with ⟨h1, h2, h3⟩ | ⟨args2, hmem, h1, h2, h3⟩
  · subst h1; simp at hn
  · subst h1; subst h2; subst h3
    have hn2 : n < args2.length := by simpa using hn
    have ht : rpAt (args2.map PairArgs.ids) n = (args2[n]).ids := by
      rw [rpAt, List.getD_eq_getElem _ _ hn, List.getElem_map]
    have hc : (args2.map fun a => cbw a.p1 a.p2).getD n 0 = cbw (args2[n]).p1 (args2[n]).p2 := by
      rw [List.getD_eq_getElem _ _ (by simpa using hn2), List.getElem_map]
    obtain ⟨hargs, hrel, -⟩ := hmem (args2[n]) (List.getElem_mem hn2)
    obtain ⟨e1, e2, e3, e4⟩ := mem_quasiArgs_reconstruct hargs
    rw [ht, ← e1, ← e2, ← e3, ← e4, hc]
    exact ⟨hrel.1, hrel.2.1, hrel.2.2, rfl⟩

theorem samplePair_relevant : pairRelevant samplePair := by
  refine ⟨?_, by norm_num [samplePair], by norm_num [samplePair]⟩
  show |(440 : ℝ) * 1 - (440 : ℝ) * 1| / _ < 1.46
  rw [sub_self, abs_zero, zero_div]
  norm_num

theorem sample_audLevel_pos : 0 < audLevel (-45) ((1000000 : ℝ) * 1) ((440 : ℝ) * 1) := by
  have h1 : Real.logb 10 ((1000000 : ℝ) * 1) = 6 := by
    rw [mul_one,
      show (1000000 : ℝ) = (10 : ℝ) ^ ((6 : ℕ) : ℝ) by rw [Real.rpow_natCast]; norm_num]
    exact Real.logb_rpow (by norm_num) (by norm_num)
  have h2 : ((440 : ℝ) * 1) ^ (-0.8 : ℝ) ≤ 1 :=
    Real.rpow_le_one_of_one_le_of_nonpos (by norm_num) (by norm_num)
  have h2b : (0 : ℝ) ≤ ((440 : ℝ) * 1) ^ (-0.8 : ℝ) :=
    Real.rpow_nonneg (by norm_num) _
  have h3 : (45.71633305 : ℝ) * (((440 : ℝ) * 1) ^ (-0.8 : ℝ)) ≤ 45.71633305 := by
    nlinarith
  have h4 : (5e-17 : ℝ) * ((440 : ℝ) * 1) ^ 4 ≤ 1 := by norm_num
  rw [audLevel, h1]
  linarith

theorem samplePair_audible : pairAudible (-45) samplePair :=
  ⟨sample_audLevel_pos, sample_audLevel_pos⟩

theorem sample_quasi_eval :
    quasi_constants (-45) [440, 440] [1000000, 1000000] [1] [1] [] [] =
      .ok ([samplePair.ids],
           [cbw samplePair.p1 samplePair.p2],
           [min (audLevel (-45) samplePair.v1 samplePair.p1)
                (audLevel (-45) samplePair.v2 samplePair.p2)]) := by
  have hargs : quasiArgs [440, 440] [1000000, 1000000] [1] [1] [] [] = [samplePair] := rfl
  have hsurv : quasiSurvivors (-45) [440, 440] [1000000, 1000000] [1] [1] [] [] = [samplePair] := by
    rw [quasiSurvivors, hargs]
    simp only [List.filter_cons, List.filter_nil, decide_eq_true_eq]
    rw [if_pos samplePair_relevant, List.filter_cons]
    simp only [List.filter_nil, decide_eq_true_eq]
    rw [if_pos samplePair_audible]
  rw [quasi_constants, if_neg (by decide), if_neg (by rw [hargs]; decide), hsurv]
  rfl

/-- Witness for C1: the two-tone concrete input `ff = [440, 440]`,
`fa = [1000000, 1000000]`, one partial at position 1, produces exactly one
relevant pair, and the theorem's conclusions hold for it. -/
theorem quasi_constants_relevant_pairs_witness :
    0 < List.length [samplePair.ids] ∧
    (hval (pairP1 [440, 440] [1] (rpAt [samplePair.ids] 0))
        (pairP2 [440, 440] [1] [] (rpAt [samplePair.ids] 0)) < 1.46 ∧
     0 < pairV1 [1000000, 1000000] [1] (rpAt [samplePair.ids] 0) ∧
     0 < pairV2 [1000000, 1000000] [1] [] (rpAt [samplePair.ids] 0) ∧
     List.getD [cbw samplePair.p1 samplePair.p2] 0 0 =
       cbw (pairP1 [440, 440] [1] (rpAt [samplePair.ids] 0))
         (pairP2 [440, 440] [1] [] (rpAt [samplePair.ids] 0))) :=
  ⟨by decide,
   quasi_constants_relevant_pairs (-45) [440, 440] [1000000, 1000000] [1] [1] [] []
     [samplePair.ids] [cbw samplePair.p1 samplePair.p2]
     [min (audLevel (-45) samplePair.v1 samplePair.p1)
          (audLevel (-45) samplePair.v2 samplePair.p2)]
     sample_quasi_eval 0 (by decide)⟩

theorem faint_audLevel_nonpos : audLevel (-45) ((1e-50 : ℝ) * 1) ((440 : ℝ) * 1) ≤ 0 := by
  have h1 : Real.logb 10 ((1e-50 : ℝ) * 1) = -50 := by
    rw [mul_one,
      show (1e-50 : ℝ) = (10 : ℝ) ^ (-(50 : ℕ) : ℝ) by
        rw [Real.rpow_neg (by norm_num), Real.rpow_natCast]; norm_num]
    exact Real.logb_rpow (by norm_num) (by norm_num)
  have h2b : (0 : ℝ) ≤ ((440 : ℝ) * 1) ^ (-0.8 : ℝ) :=
    Real.rpow_nonneg (by norm_num) _
  have h3 : (0 : ℝ) ≤ (45.71633305 : ℝ) * (((440 : ℝ) * 1) ^ (-0.8 : ℝ)) := by positivity
  have h4 : (0 : ℝ) ≤ (5e-17 : ℝ) * ((440 : ℝ) * 1) ^ 4 := by norm_num
  rw [audLevel, h1]
  linarith

theorem faintPair_relevant : pairRelevant faintPair := by
  refine ⟨?_, by norm_num [faintPair], by norm_num [faintPair]⟩
  show |(440 : ℝ) * 1 - (440 : ℝ) * 1| / _ < 1.46
  rw [sub_self, abs_zero, zero_div]
  norm_num

theorem faintPair_not_audible : ¬ pairAudible (-45) faintPair := fun hc =>
  absurd hc.2 (not_lt.2 faint_audLevel_nonpos)

/-- C3 counterexample: with tones at 440 Hz of raw amplitudes `1000000` and
`1e-50` (threshold log `-45`), the candidate pair passes the relevance filter
and its first auditory proxy is positive, yet `quasi_constants` returns no
relevant pairs — the audibility filter drops every pair in which at least one
proxy is `≤ 0`, not only those in which both are. -/
theorem quasi_audibility_counterexample :
    pairRelevant faintPair ∧
    0 < audLevel (-45) faintPair.v1 faintPair.p1 ∧
    quasi_constants (-45) [440, 440] [1000000, 1e-50] [1] [1] [] [] = .ok ([], [], []) := by
  refine ⟨faintPair_relevant, sample_audLevel_pos, ?_⟩
  have hargs : quasiArgs [440, 440] [1000000, 1e-50] [1] [1] [] [] = [faintPair] := rfl
  have hsurv : quasiSurvivors (-45) [440, 440] [1000000, 1e-50] [1] [1] [] [] = [] := by
    rw [quasiSurvivors, hargs]
    simp only [List.filter_cons, List.filter_nil, decide_eq_true_eq]
    rw [if_pos faintPair_relevant, List.filter_cons]
    simp only [List.filter_nil, decide_eq_true_eq]
    rw [if_neg faintPair_not_audible]
  rw [quasi_constants, if_neg (by decide), if_neg (by rw [hargs]; decide), hsurv]
  rfl

/-- C3 (amended): a pair survives the audibility filter of `quasi_constants`
only when BOTH of its auditory-level proxies are `> 0` (a pair with at least
one proxy `≤ 0` is dropped), and each surviving pair's volume factor is
`min(v1, v2)` of the two proxies. -/
theorem quasi_constants_volume_factors (atl : ℝ) (ff fa pp pa fxf fxa : List ℝ)
    (rps : List (ℕ × ℕ × ℕ × ℤ)) (cbs vfs : List ℝ)
    (hq : quasi_constants atl ff fa pp pa fxf fxa = .ok (rps, cbs, vfs))
    (n : ℕ) (hn : n < rps.length) :
    0 < audLevel atl (pairV1 fa pa (rpAt rps n)) (pairP1 ff pp (rpAt rps n)) ∧
    0 < audLevel atl (pairV2 fa pa fxa (rpAt rps n)) (pairP2 ff pp fxf (rpAt rps n)) ∧
    vfs.getD n 0 =
      min (audLevel atl (pairV1 fa pa (rpAt rps n)) (pairP1 ff pp (rpAt rps n)))
        (audLevel atl (pairV2 fa pa fxa (rpAt rps n)) (pairP2 ff pp fxf (rpAt rps n))) := by
  rcases quasi_constants_ok_elim hq with ⟨h1, h2, h3⟩ | ⟨args2, hmem, h1, h2, h3⟩
  · subst h1; simp at hn
  · subst h1; subst h2; subst h3
    have hn2 : n < args2.length := by simpa using hn
    have ht : rpAt (args2.map PairArgs.ids) n = (args2[n]).ids := by
      rw [rpAt, List.getD_eq_getElem _ _ hn, List.getElem_map]
    have hv : (args2.map fun a =>
        min (audLevel atl a.v1 a.p1) (audLevel atl a.v2 a.p2)).getD n 0 =
        min (audLevel atl (args2[n]).v1 (args2[n]).p1)
          (audLevel atl (args2[n]).v2 (args2[n]).p2) := by
      rw [List.getD_eq_getElem _ _ (by simpa using hn2), List.getElem_map]
    obtain ⟨hargs, -, haud⟩ := hmem (args2[n]) (List.getElem_mem hn2)
    obtain ⟨e1, e2, e3, e4⟩ := mem_quasiArgs_reconstruct hargs
    rw [ht, ← e1, ← e2, ← e3, ← e4, hv]
    exact ⟨haud.1, haud.2, rfl⟩

/-- Witness for the amended C3 at the concrete two-tone input: both proxies of
the surviving pair are positive and its volume factor is their minimum. -/
theorem quasi_constants_volume_factors_witness :
    0 < List.length [samplePair.ids] ∧
    (0 < audLevel (-45) (pairV1 [1000000, 1000000] [1] (rpAt [samplePair.ids] 0))
        (pairP1 [440, 440] [1] (rpAt [samplePair.ids] 0)) ∧
     0 < audLevel (-45) (pairV2 [1000000, 1000000] [1] [] (rpAt [samplePair.ids] 0))
        (pairP2 [440, 440] [1] [] (rpAt [samplePair.ids] 0)) ∧
     List.getD [min (audLevel (-45) samplePair.v1 samplePair.p1)
          (audLevel (-45) samplePair.v2 samplePair.p2)] 0 0 =
       min (audLevel (-45) (pairV1 [1000000, 1000000] [1] (rpAt [samplePair.ids] 0))
           (pairP1 [440, 440] [1] (rpAt [samplePair.ids] 0)))
         (audLevel (-45) (pairV2 [1000000, 1000000] [1] [] (rpAt [samplePair.ids] 0))
           (pairP2 [440, 440] [1] [] (rpAt [samplePair.ids] 0)))) :=
  ⟨by decide,
   quasi_constants_volume_factors (-45) [440, 440] [1000000, 1000000] [1] [1] [] []
     [samplePair.ids] [cbw samplePair.p1 samplePair.p2]
     [min (audLevel (-45) samplePair.v1 samplePair.p1)
          (audLevel (-45) samplePair.v2 samplePair.p2)]
     sample_quasi_eval 0 (by decide)⟩

/-- C10: whenever the composition of `quasi_constants` and
`dissonance_and_gradient` (`single_dissonance_and_gradient`) returns a result,
the total dissonance is non-negative: every surviving pair has a strictly
positive volume factor (the `min` of two proxies that both passed the `> 0`
filter) and the pairwise roughness `h^2 * exp(-8h)` is non-negative. -/
theorem single_dissonance_nonneg (atl : ℝ) (ff fa pp pa fxf fxa : List ℝ) (d : ℝ) (g : List ℝ)
    (h : single_dissonance_and_gradient atl ff fa pp pa fxf fxa = .ok (d, g)) : 0 ≤ d := by
  unfold single_dissonance_and_gradient at h
  cases hq : quasi_constants atl ff fa pp pa fxf fxa with
  | error e => rw [hq] at h; exact Except.noConfusion h
  | ok trip =>
    obtain ⟨rps, cbs, vfs⟩ := trip
    rw [hq] at h
    injection h with h1
    have hd : (dissonance_and_gradient ff pp fxf cbs vfs rps).1 = d := by rw [h1]
    rw [← hd]
    rcases quasi_constants_ok_elim hq with ⟨e1, e2, e3⟩ | ⟨args2, hmem, e1, e2, e3⟩
    · subst e1; simp [dissonance_and_gradient]
    · subst e1; subst e2; subst e3
      unfold dissonance_and_gradient
      split
      · norm_num
      · dsimp only
        refine Finset.sum_nonneg fun n hn => ?_
        refine mul_nonneg (mul_nonneg (sq_nonneg _) (Real.exp_pos _).le) ?_
        have hn' : n < args2.length := by simpa using Finset.mem_range.1 hn
        have hv : (args2.map fun a =>
            min (audLevel atl a.v1 a.p1) (audLevel atl a.v2 a.p2)).getD n 0 =
            min (audLevel atl (args2[n]).v1 (args2[n]).p1)
              (audLevel atl (args2[n]).v2 (args2[n]).p2) := by
          rw [List.getD_eq_getElem _ _ (by simpa using hn'), List.getElem_map]
        rw [hv]
        obtain ⟨-, -, haud⟩ := hmem (args2[n]) (List.getElem_mem hn')
        exact le_min haud.1.le haud.2.le

/-- Witness for C10: on the empty input the composition returns dissonance
`0`, which is non-negative. -/
theorem single_dissonance_nonneg_witness :
    single_dissonance_and_gradient 1 [] [] [] [] [] [] = .ok (0, []) ∧ (0 : ℝ) ≤ 0 :=
  ⟨rfl, single_dissonance_nonneg 1 [] [] [] [] [] [] 0 [] rfl⟩

/-- C4: degenerate inputs yield defined trivial results: `quasi_constants`
returns three empty arrays for 0 complex tones, or for exactly 1 complex tone
and 0 fixed frequencies; `dissonance_and_gradient` with no relevant pairs
returns dissonance `0` and a zero gradient of length `N`; and `tune` with 0
fundamentals returns `success = true` and `x = []` without invoking the
optimizer (the result does not depend on `m`). -/
theorem degenerate_inputs (atl : ℝ) (m : Minimizer) (rb : Option (ℝ × ℝ)) (f : ℝ)
    (fa pp pa fxf fxa ff2 pp2 fxf2 cbs vfs : List ℝ) :
    quasi_constants atl [] fa pp pa fxf fxa = .ok ([], [], []) ∧
    quasi_constants atl [f] fa pp pa [] fxa = .ok ([], [], []) ∧
    dissonance_and_gradient ff2 pp2 fxf2 cbs vfs [] = (0, List.replicate ff2.length 0) ∧
    tune m atl rb [] fa pp pa fxf fxa =
      .ok { x := [], success := true, fval := 0, jac := [], nit := 0 } := by
  refine ⟨?_, ?_, ?_, ?_⟩
  · simp [quasi_constants]
  · simp [quasi_constants]
  · simp [dissonance_and_gradient]
  · simp [tune]

/-- C6 counterexample: a concrete call with two complex tones, an empty
`partials_pos` array and no fixed frequencies makes the candidate pair array
an empty 1-dimensional `np.array`, so `args[:,0:4]` raises an uncaught
`IndexError` — the call does raise to the caller. -/
theorem quasi_constants_empty_partials_raises :
    quasi_constants 1 [440, 550] [1, 1] [] [] [] [] = .error () := rfl

/-- C6 (amended): with an empty `partials_pos`, `quasi_constants` returns the
trivial empty result exactly in the 0-tone and 1-tone-no-fixed cases and
raises an `IndexError` in every other case; `tune` with at least two
fundamentals and empty `partials_pos` (and no fixed frequencies) propagates
the exception to its caller. -/
theorem quasi_constants_empty_partials (atl : ℝ) (ff fa pa fxf fxa : List ℝ)
    (m : Minimizer) (rb : Option (ℝ × ℝ)) (f1 f2 : ℝ) (ffr : List ℝ) :
    (quasi_constants atl ff fa [] pa fxf fxa =
      if ff.length = 0 ∨ (ff.length = 1 ∧ fxf.length = 0) then .ok ([], [], [])
      else .error ()) ∧
    tune m atl rb (f1 :: f2 :: ffr) fa [] pa [] fxa = .error () := by
  have hargs : ∀ ff0 fa0 pa0 fxf0 fxa0 : List ℝ, quasiArgs ff0 fa0 [] pa0 fxf0 fxa0 = [] := by
    intro ff0 fa0 pa0 fxf0 fxa0
    rw [quasiArgs, tonePairArgs, fixedPairArgs]
    simp
  have hquasi : ∀ ff0 fa0 pa0 fxf0 fxa0 : List ℝ,
      quasi_constants atl ff0 fa0 [] pa0 fxf0 fxa0 =
        if ff0.length = 0 ∨ (ff0.length = 1 ∧ fxf0.length = 0) then .ok ([], [], [])
        else .error () := by
    intro ff0 fa0 pa0 fxf0 fxa0
    rw [quasi_constants]
    split
    · rfl
    · rw [if_pos (by rw [hargs]; rfl)]
  refine ⟨hquasi ff fa pa fxf fxa, ?_⟩
  rw [tune, if_neg (by simp), hquasi, if_neg (by simp)]

/-- C5: `tune` with exactly one fundamental and no fixed frequencies returns
`x` equal to the input fundamental unchanged (with success), for every solver
that leaves a stationary starting point unchanged: `quasi_constants` yields no
relevant pairs, so the dissonance objective is identically `0` with zero
gradient. -/
theorem tune_single_fundamental (m : Minimizer) (hm : MinimizerReturnsStationaryStart m)
    (atl : ℝ) (rb : Option (ℝ × ℝ)) (f a : ℝ) (pp pa : List ℝ) :
    tuneXS (tune m atl rb [f] [a] pp pa [] []) = some ([f], true) := by
  have hq : quasi_constants atl [f] [a] pp pa [] [] = .ok ([], [], []) := by
    simp [quasi_constants]
  rw [tune, if_neg (by simp), hq]
  have h := hm (fun fs => dissonance_and_gradient fs pp [] [] [] []) [f]
    (Option.map (fun rb0 => [(f * rb0.1, f * rb0.2)]) rb)
    (by simp [dissonance_and_gradient])
  simp [tuneXS, h.1, h.2]

/-- Witness for C5: with the trivial solver that returns its starting point
(which satisfies the stationary-start property), tuning the single fundamental
440 returns `x = [440]` and success. -/
theorem tune_single_fundamental_witness :
    MinimizerReturnsStationaryStart startMinimizer ∧
    tuneXS (tune startMinimizer 1 none [440] [1] [1, 2] [1, 0.5] [] []) = some ([440], true) :=
  ⟨fun _ _ _ _ => ⟨rfl, rfl⟩,
   tune_single_fundamental startMinimizer (fun _ _ _ _ => ⟨rfl, rfl⟩) 1 none 440 1 [1, 2] [1, 0.5]⟩

theorem dgSg1_eq_spec (ff pp fxf cbs vfs : List ℝ) (rps : List (ℕ × ℕ × ℕ × ℤ)) (n : ℕ) :
    dgSg1 ff pp fxf cbs vfs rps n =
      specSideContrib (pairP1 ff pp (rpAt rps n)) (pairP2 ff pp fxf (rpAt rps n))
        (cbs.getD n 0) (vfs.getD n 0) (dgR1 pp rps n)
        (pairP1 ff pp (rpAt rps n)) (pairP2 ff pp fxf (rpAt rps n)) := by
  unfold dgSg1 dgDhdc dgH specSideContrib
  rcases lt_trichotomy (pairP1 ff pp (rpAt rps n)) (pairP2 ff pp fxf (rpAt rps n)) with
    hlt | heq | hgt
  · rw [if_neg (not_lt.2 hlt.le), Real.sign_of_neg (by linarith)]
    ring
  · rw [heq, if_neg (lt_irrefl _), sub_self, Real.sign_zero, abs_zero, zero_div]
    ring
  · rw [if_pos hgt, Real.sign_of_pos (by linarith)]
    ring

theorem dgSg2_eq_spec (ff pp fxf cbs vfs : List ℝ) (rps : List (ℕ × ℕ × ℕ × ℤ)) (n : ℕ) :
    dgSg2 ff pp fxf cbs vfs rps n =
      specSideContrib (pairP1 ff pp (rpAt rps n)) (pairP2 ff pp fxf (rpAt rps n))
        (cbs.getD n 0) (vfs.getD n 0) (dgR2 pp rps n)
        (pairP2 ff pp fxf (rpAt rps n)) (pairP1 ff pp (rpAt rps n)) := by
  unfold dgSg2 dgDhdc dgH specSideContrib
  rcases lt_trichotomy (pairP1 ff pp (rpAt rps n)) (pairP2 ff pp fxf (rpAt rps n)) with
    hlt | heq | hgt
  · rw [if_neg (not_lt.2 hlt.le), Real.sign_of_neg (by linarith)]
    ring
  · rw [heq, if_neg (lt_irrefl _), sub_self, Real.sign_zero, abs_zero, zero_div]
    ring
  · rw [if_pos hgt, Real.sign_of_pos (by linarith)]
    ring

/-- C2: for every input with at least one relevant pair (ids in range, as
produced by `quasi_constants`), `dissonance_and_gradient` returns the total
dissonance `Σ h^2 exp(-8h) · volume_factor` over the relevant pairs (with
`h = |p1-p2|/cb` at the stored critical bandwidths) and the gradient vector
whose entry for tone `i` sums, with sign `+` for the first role and `-` for the
second role, the per-side contributions
`2h e^(-8h)(1-4h) · sign(p1-p2)/cb · volume_factor · partials_pos[k] ·
(0.5·(other/this - 1) + 1)`. -/
theorem dissonance_and_gradient_formula (ff pp fxf cbs vfs : List ℝ)
    (rps : List (ℕ × ℕ × ℕ × ℤ)) (hne : rps ≠ [])
    (hrange : ∀ t ∈ rps, t.1 < ff.length ∧ t.2.1 < pp.length ∧
      (0 ≤ t.2.2.2 → t.2.2.1 < ff.length ∧ t.2.2.2.toNat < pp.length) ∧
      (t.2.2.2 < 0 → t.2.2.1 < fxf.length)) :
    (dissonance_and_gradient ff pp fxf cbs vfs rps).1 =
      (∑ n ∈ Finset.range rps.length, specPairDiss ff pp fxf cbs vfs rps n) ∧
    (dissonance_and_gradient ff pp fxf cbs vfs rps).2 =
      (List.range ff.length).map (specGradEntry ff pp fxf cbs vfs rps) := by
  rw [dissonance_and_gradient, if_neg (by simp [List.isEmpty_iff, hne])]
  constructor
  · dsimp only
    exact Finset.sum_congr rfl fun n _ => by rw [dgD, dgH, specPairDiss]
  · dsimp only
    refine List.map_congr_left fun i _ => ?_
    rw [specGradEntry, Finset.sum_sub_distrib]
    congr 1
    · exact Finset.sum_congr rfl fun n _ => by rw [dgSg1_eq_spec]
    · exact Finset.sum_congr rfl fun n _ => by rw [dgSg2_eq_spec]

/-- Witness for C2: the one-pair input `ff = [440, 660]`, `pp = [1]`,
`cbs = [100]`, `vfs = [2]`, `rps = [(0,0,1,0)]` satisfies the hypotheses and
the conclusion. -/
theorem dissonance_and_gradient_formula_witness :
    ([((0 : ℕ), (0 : ℕ), (1 : ℕ), (0 : ℤ))] ≠ ([] : List (ℕ × ℕ × ℕ × ℤ))) ∧
    ((dissonance_and_gradient [440, 660] [1] [] [100] [2] [(0, 0, 1, 0)]).1 =
      (∑ n ∈ Finset.range (List.length [((0 : ℕ), (0 : ℕ), (1 : ℕ), (0 : ℤ))]),
        specPairDiss [440, 660] [1] [] [100] [2] [(0, 0, 1, 0)] n) ∧
     (dissonance_and_gradient [440, 660] [1] [] [100] [2] [(0, 0, 1, 0)]).2 =
      (List.range (List.length ([440, 660] : List ℝ))).map
        (specGradEntry [440, 660] [1] [] [100] [2] [(0, 0, 1, 0)])) :=
  ⟨by decide,
   dissonance_and_gradient_formula [440, 660] [1] [] [100] [2] [(0, 0, 1, 0)]
     (by decide) (by decide)⟩

/-- C7: in every tuning pass, the starting fundamental snapshotted for each
currently running pitch `p` is always `440 * 2^((p - 69) / 12)` computed from
the raw MIDI pitch; the snapshot is unchanged when every voice's (previously
tuned) `frequency` field is replaced by arbitrary values. -/
theorem tune_loop_snapshot_et (keys : List (ℕ × Option KeyData)) (now : ℝ) (g : ℕ → ℝ) :
    (∀ e ∈ snapshotRunning keys now, e.2.1 = etFreq e.1) ∧
    snapshotRunning
        (keys.map fun pk => (pk.1, pk.2.map fun k => { k with frequency := g pk.1 })) now
      = snapshotRunning keys now := by
  constructor
  · intro e he
    rw [snapshotRunning] at he
    rcases List.mem_filterMap.1 he with ⟨pk, -, hsome⟩
    cases h2 : pk.2 with
    | none => rw [h2] at hsome; exact Option.noConfusion hsome
    | some k =>
      rw [h2] at hsome
      dsimp only at hsome
      split at hsome
      · injection hsome with h3
        subst h3
        rfl
      · exact Option.noConfusion hsome
  · rw [snapshotRunning, snapshotRunning, List.filterMap_map]
    refine List.filterMap_congr fun pk _ => ?_
    cases h2 : pk.2 with
    | none => simp [Function.comp, h2]
    | some k => simp [Function.comp, h2, KeyData.currently_running]

/-- Witness for C7: a table with a single pressed voice at pitch 69 snapshots
it with the equal-tempered fundamental. -/
theorem tune_loop_snapshot_et_witness :
    ((69 : ℕ), etFreq 69, (1 : ℝ)) ∈
        snapshotRunning [(69, some (adsrKey 1 440 0 [1] [1]))] 0.05 ∧
    ((69 : ℕ), etFreq 69, (1 : ℝ)).2.1 = etFreq ((69 : ℕ), etFreq 69, (1 : ℝ)).1 := by
  have hmem : ((69 : ℕ), etFreq 69, (1 : ℝ)) ∈
      snapshotRunning [(69, some (adsrKey 1 440 0 [1] [1]))] 0.05 := by
    simp [snapshotRunning, List.filterMap_cons, adsrKey, KeyData.currently_running]
  exact ⟨hmem,
    (tune_loop_snapshot_et [(69, some (adsrKey 1 440 0 [1] [1]))] 0.05 fun _ => 0).1 _ hmem⟩

/-- C8: a voice pressed at time 0 with attack 0.1, decay 0.2, sustain 0.3 and
release 0.4 has envelope height 1 at elapsed time 0.1 and 0.3 for every
elapsed time `≥ 0.3` while pressed (`current_amplitude` being `amplitude`
times those values); it keeps running while pressed, and after release it
keeps running exactly while the elapsed time since release is `< 0.4`. -/
theorem keydata_envelope (amp fr e r : ℝ) (pp pa : List ℝ) :
    (adsrKey amp fr e pp pa).current_env 0.1 = 1 ∧
    (∀ now, 0.3 ≤ now → (adsrKey amp fr e pp pa).current_env now = 0.3) ∧
    (adsrKey amp fr e pp pa).current_amplitude 0.1 = amp * 1 ∧
    (∀ now, 0.3 ≤ now → (adsrKey amp fr e pp pa).current_amplitude now = amp * 0.3) ∧
    (∀ now, (adsrKey amp fr e pp pa).currently_running now) ∧
    (∀ now, ((adsrKey amp fr e pp pa).release r).currently_running now ↔ now - r < 0.4) := by
  have henv1 : (adsrKey amp fr e pp pa).current_env 0.1 = 1 := by
    rw [adsrKey, KeyData.current_env]
    norm_num
  have henv2 : ∀ now : ℝ, 0.3 ≤ now → (adsrKey amp fr e pp pa).current_env now = 0.3 := by
    intro now hnow
    rw [adsrKey, KeyData.current_env]
    simp only
    rw [if_pos trivial, if_neg (not_lt.2 (by linarith)), if_neg (not_lt.2 (by linarith))]
    ring
  refine ⟨henv1, henv2, ?_, ?_, ?_, ?_⟩
  · rw [KeyData.current_amplitude, henv1]
    rfl
  · intro now hnow
    rw [KeyData.current_amplitude, henv2 now hnow]
    rfl
  · intro now
    exact Or.inl rfl
  · intro now
    simp [KeyData.release, KeyData.currently_running, adsrKey]

/-- Witness for C8: concrete instants for the envelope round-trip with
amplitude 2: height 1 at 0.1, height 0.3 at 0.5, still running 0.2 after a
release at 1, no longer running 0.5 after it. -/
theorem keydata_envelope_witness :
    (adsrKey 2 440 0 [1] [1]).current_env 0.1 = 1 ∧
    ((0.3 : ℝ) ≤ 0.5 ∧ (adsrKey 2 440 0 [1] [1]).current_env 0.5 = 0.3) ∧
    ((adsrKey 2 440 0 [1] [1]).release 1).currently_running 1.2 ∧
    ¬ ((adsrKey 2 440 0 [1] [1]).release 1).currently_running 1.5 := by
  have h := keydata_envelope 2 440 0 1 [1] [1]
  refine ⟨h.1, ⟨by norm_num, h.2.1 0.5 (by norm_num)⟩, ?_, ?_⟩
  · exact (h.2.2.2.2.2 1.2).2 (by norm_num)
  · intro hc
    have := (h.2.2.2.2.2 1.5).1 hc
    norm_num at this

/-- C9: `note_change_freq` is a frequency-only update: it changes only the
`frequency` field of the key at `pitch` (amplitude, pressed flag, envelope
timestamps and parameters are untouched, so no envelope restarts), leaves all
other pitches and the synth table unchanged, and forwards the new frequency to
the sound output exactly when a synth is running at that pitch. -/
theorem note_change_freq_frame (s : AGState) (pitch : ℕ) (freq : ℝ) :
    (∀ q, q ≠ pitch → (note_change_freq s pitch freq).1.keys q = s.keys q) ∧
    (∀ k, s.keys pitch = some k →
      (note_change_freq s pitch freq).1.keys pitch = some { k with frequency := freq }) ∧
    (s.keys pitch = none → (note_change_freq s pitch freq).1.keys pitch = none) ∧
    (∀ k k2, s.keys pitch = some k →
      (note_change_freq s pitch freq).1.keys pitch = some k2 →
      k2.frequency = freq ∧ k2.amplitude = k.amplitude ∧ k2.pressed = k.pressed ∧
      k2.timestamp = k.timestamp ∧ k2.attack_time = k.attack_time ∧
      k2.decay_time = k.decay_time ∧ k2.sustain_level = k.sustain_level ∧
      k2.release_time = k.release_time ∧ k2.partials_pos = k.partials_pos ∧
      k2.partials_amp = k.partials_amp ∧ k2.env_when_released = k.env_when_released) ∧
    (note_change_freq s pitch freq).1.synths = s.synths ∧
    (note_change_freq s pitch freq).2 =
      (if s.synths pitch then [SCMsg.setFreq pitch freq] else []) := by
  refine ⟨?_, ?_, ?_, ?_, rfl, rfl⟩
  · intro q hq
    simp [note_change_freq, hq]
  · intro k hk
    simp [note_change_freq, hk]
  · intro hk
    simp [note_change_freq, hk]
  · intro k k2 hk hk2
    have hupd : (note_change_freq s pitch freq).1.keys pitch =
        (s.keys pitch).map fun k0 => { k0 with frequency := freq } := by
      simp [note_change_freq]
    rw [hupd, hk] at hk2
    simp only [Option.map_some'] at hk2
    injection hk2 with h3
    subst h3
    exact ⟨rfl, rfl, rfl, rfl, rfl, rfl, rfl, rfl, rfl, rfl, rfl⟩

/-- Witness for C9: in the one-voice state, changing pitch 60 to 330 Hz leaves
pitch 61 untouched, updates only the frequency of the voice at 60, keeps the
synth table, and emits the frequency message. -/
theorem note_change_freq_frame_witness :
    (note_change_freq sampleAG 60 330).1.keys 61 = sampleAG.keys 61 ∧
    (note_change_freq sampleAG 60 330).1.keys 60 =
      some { adsrKey 1 440 0 [1] [1] with frequency := 330 } ∧
    (note_change_freq sampleAG 60 330).1.synths = sampleAG.synths ∧
    (note_change_freq sampleAG 60 330).2 = [SCMsg.setFreq 60 330] := by
  have h := note_change_freq_frame sampleAG 60 330
  exact ⟨h.1 61 (by decide), h.2.1 (adsrKey 1 440 0 [1] [1]) rfl,
    h.2.2.2.2.1, h.2.2.2.2.2.trans rfl⟩

end Adaptivetuning
